import Mathlib

/-!
Verification of the RWX VS Code extension language server
(`src/server/src/server.ts`) against its natural-language specification.

The TypeScript source is shallowly embedded: every JavaScript string is
modelled as a Lean `String`, manipulated through its underlying `List Char`
(JavaScript string indices are UTF-16 code-unit indices; the embedding
identifies them with character indices, which agrees with the source for
all documents in the Basic Multilingual Plane). The regular expressions of
the source are tiny and anchored, and are embedded as the equivalent
explicit scanning functions. Asynchronous functions touching the network,
the file system or the protocol connection are embedded as pure functions
over an explicit state or oracle argument (the network response, the
directory listing, the resolved settings), which is exactly the data the
original code awaits.
-/

namespace RwxServer

/-! ## String primitives

List-level re-implementations of the JavaScript string operations used by
the server, written with structural recursion so that every concrete
instance reduces inside the kernel. -/

/-- The character class of the JavaScript regular-expression `\s`
(ECMA-262 WhiteSpace and LineTerminator code points). -/
def jsWs (c : Char) : Bool :=
  let n := c.toNat
  n = 0x20 || n = 0x09 || n = 0x0A || n = 0x0B || n = 0x0C || n = 0x0D ||
  n = 0xA0 || n = 0x1680 || (decide (0x2000 ≤ n) && decide (n ≤ 0x200A)) ||
  n = 0x2028 || n = 0x2029 || n = 0x202F || n = 0x205F || n = 0x3000 || n = 0xFEFF

/-- Does the first list occur at the head of the second list?
(Used below to embed anchored literal matches of the regular expressions.) -/
def headMatch : List Char → List Char → Bool
  | [], _ => true
  | _ :: _, [] => false
  | p :: ps, c :: cs => p = c && headMatch ps cs

/-- Index of the first occurrence of `pat` in `l`, as in JavaScript
`String.prototype.indexOf` (`none` embeds the result `-1`). -/
def firstOcc (pat : List Char) : List Char → Option Nat
  | [] => if headMatch pat [] then some 0 else none
  | c :: t => if headMatch pat (c :: t) then some 0 else (firstOcc pat t).map (· + 1)

/-- Index of the last occurrence of `pat` in `l`, as in JavaScript
`String.prototype.lastIndexOf` (`none` embeds the result `-1`). -/
def lastOcc (pat : List Char) : List Char → Option Nat
  | [] => if headMatch pat [] then some 0 else none
  | c :: t =>
    match lastOcc pat t with
    | some j => some (j + 1)
    | none => if headMatch pat (c :: t) then some 0 else none

/-- JavaScript `String.prototype.includes`. -/
def containsSub (pat : List Char) (l : List Char) : Bool :=
  (firstOcc pat l).isSome

/-- JavaScript `String.prototype.split` with a single-character separator. -/
def splitOnChar (sep : Char) : List Char → List (List Char)
  | [] => [[]]
  | c :: t =>
    let r := splitOnChar sep t
    if c = sep then [] :: r
    else
      match r with
      | h :: t2 => (c :: h) :: t2
      | [] => [[c]]

/-- Concatenate chunks with a single-character separator between them
(the inverse of `splitOnChar`; used to embed path joining in
`path.normalize`). -/
def joinSep : List (List Char) → List Char
  | [] => []
  | [s] => s
  | s :: rest => s ++ '/' :: joinSep rest

/-- JavaScript `String.prototype.replace` with a plain-string pattern:
removes the first occurrence of `pat` (replacement is the empty string, as
in `uri.replace("file://", "")` in the source). -/
def removeFirst (pat l : List Char) : List Char :=
  match firstOcc pat l with
  | none => l
  | some i => l.take i ++ l.drop (i + pat.length)

/-! ## Data model (mirrors the LSP structures used by the server) -/

/-- LSP diagnostic severity (only the two constructors the server uses). -/
inductive DiagSeverity
  | error
  | warning
  deriving DecidableEq, Repr

/-- LSP position: zero-based line and character. -/
structure LPos where
  line : Nat
  character : Nat
  deriving DecidableEq, Repr

/-- LSP range: start and end positions (the `end` field is called `stop`
because `end` is a Lean keyword). -/
structure LRange where
  start : LPos
  stop : LPos
  deriving DecidableEq, Repr

/-- The `data` payload attached to a version-outdated diagnostic in
`checkPackageVersions` and consumed by `connection.onCodeAction`. -/
structure VersionData where
  packageName : String
  currentVersion : String
  latestVersion : String
  line : Nat
  versionStart : Nat
  versionEnd : Nat
  deriving DecidableEq, Repr

/-- LSP diagnostic, restricted to the fields the server populates. -/
structure Diagnostic where
  severity : DiagSeverity
  range : LRange
  message : String
  source : String
  code : Option String := none
  data : Option VersionData := none
  deriving DecidableEq, Repr

/-- One entry of the catalog returned by the `leaves/documented` endpoint
(interface `RWXPackage` in the source). -/
structure RWXPackage where
  version : String
  description : String
  deriving DecidableEq, Repr

/-- The catalog object (`RWXPackagesResponse`): a JavaScript object is
embedded as an association list with distinct keys; property lookup is
lookup of the first matching key. -/
abbrev Catalog := List (String × RWXPackage)

/-- JavaScript property read `latestPackages[packageName]`. -/
def catalogLookup (cat : Catalog) (name : String) : Option RWXPackage :=
  (List.find? (fun p => p.1 = name) cat).map (·.2)

/-! ## Call-line extraction (`extractPackageAndVersionFromCallLine`,
`extractAllCallLines`) -/

/-- Embedding of `extractPackageAndVersionFromCallLine` (server.ts:468).
The source matches the anchored regular expression
`/^\s*call:\s*([^\s]+)\s+([^\s]+)/` against the line and returns the two
captured tokens. The embedding performs the same maximal-munch scan: the
anchored `\s*` before a non-`\s` literal and the greedy `[^\s]+` followed
by `\s+` admit no backtracking, so the scan below is equivalent to the
regular-expression match. -/
def extractPackageAndVersionFromCallLine (line : String) :
    Option (String × String) :=
  let s1 := line.toList.dropWhile jsWs
  if headMatch "call:".toList s1 then
    let s2 := (s1.drop 5).dropWhile jsWs
    let pkg := s2.takeWhile (fun c => !jsWs c)
    if pkg = [] then none
    else
      match s2.drop pkg.length with
      | [] => none
      | c :: rest =>
        if jsWs c then
          let ver := (rest.dropWhile jsWs).takeWhile (fun c => !jsWs c)
          if ver = [] then none else some (String.mk pkg, String.mk ver)
        else none
  else none

/-- One record of the array built by `extractAllCallLines`. -/
structure CallLine where
  packageName : String
  version : String
  line : Nat
  versionStart : Nat
  versionEnd : Nat
  deriving DecidableEq, Repr

/-- Embedding of `extractAllCallLines` (server.ts:629): split the document
text on newlines, skip falsy (empty) lines, extract package and version,
and record the span of the last occurrence of the version string in the
line (`line.lastIndexOf(packageInfo.version)`). The for-loop that pushes
one optional record per line is embedded as `filterMap` over the
enumerated lines. -/
def extractAllCallLines (text : String) : List CallLine :=
  ((splitOnChar '\n' text.toList).enum).filterMap fun p =>
    let line := p.2
    if line = [] then none
    else
      match extractPackageAndVersionFromCallLine (String.mk line) with
      | none => none
      | some (pkg, ver) =>
        match lastOcc ver.toList line with
        | none => none
        | some idx => some ⟨pkg, ver, p.1, idx, idx + ver.length⟩

/-- The diagnostic `checkPackageVersions` builds for one outdated call
line. Note the `source` field: the produced value is the string
`"mint"`, taken verbatim from server.ts:683. -/
def outdatedDiag (cl : CallLine) (latest : String) : Diagnostic :=
  { severity := .warning
    range := ⟨⟨cl.line, cl.versionStart⟩, ⟨cl.line, cl.versionEnd⟩⟩
    message := "Package version " ++ cl.version ++
      " is outdated. The newest version is " ++ latest ++ "."
    source := "mint"
    code := some "outdated-version"
    data := some ⟨cl.packageName, cl.version, latest, cl.line,
      cl.versionStart, cl.versionEnd⟩ }

/-- Embedding of `checkPackageVersions` (server.ts:659). The awaited
`fetchRWXPackages()` result is passed as the `fetched` argument; the
source returns an empty list when it is null. The per-call-line loop that
pushes a diagnostic when the catalog lists the package with a different
version is embedded as `filterMap`. -/
def checkPackageVersions (text : String) (fetched : Option Catalog) :
    List Diagnostic :=
  match fetched with
  | none => []
  | some cat =>
    (extractAllCallLines text).filterMap fun cl =>
      match catalogLookup cat cl.packageName with
      | some latestPackage =>
        if latestPackage.version ≠ cl.version then
          some (outdatedDiag cl latestPackage.version)
        else none
      | none => none

/-! ## Scope predicate (`isRwxRunFile`) -/

/-- Segment resolution of Node `path.posix.normalize`: drop empty and `.`
segments, resolve `..` by popping the previous segment (keeping a run of
leading `..` segments only when `allowAbove` is set, i.e. for relative
paths). -/
def normalizeSegs (allowAbove : Bool) (segs : List (List Char)) :
    List (List Char) :=
  segs.foldl
    (fun acc seg =>
      if seg = [] ∨ seg = ".".toList then acc
      else if seg = "..".toList then
        if acc ≠ [] ∧ acc.getLast? ≠ some "..".toList then acc.dropLast
        else if allowAbove then acc ++ [seg]
        else acc
      else acc ++ [seg])
    []

/-- Node `path.posix.normalize`: empty input becomes `.`; otherwise the
path is split on `/`, its segments are resolved, and the leading slash of
an absolute path and a trailing slash are preserved. The server runs under
Node, where `path.normalize`/`path.sep` are platform specific; the
embedding fixes the POSIX behaviour (`sep = '/'`), the platform assumed
throughout the specification. -/
def posixNormalize (p : List Char) : List Char :=
  if p = [] then ".".toList
  else
    let abs := headMatch ['/'] p
    let trail := p.getLast? = some '/'
    let core := joinSep (normalizeSegs (!abs) (splitOnChar '/' p))
    if core = [] then
      if abs then ['/'] else if trail then ['.', '/'] else ['.']
    else
      let core2 := if trail then core ++ ['/'] else core
      if abs then '/' :: core2 else core2

/-- Embedding of `isRwxRunFile` (server.ts:254): remove the first
occurrence of `file://` from the URI (JavaScript
`uri.replace('file://', '')` with a string pattern replaces the first
occurrence, wherever it is), normalize, split on the path separator, and
test whether some segment is exactly `.mint` or `.rwx`. -/
def isRwxRunFile (uri : String) : Bool :=
  let filePath := removeFirst "file://".toList uri.toList
  let normalizedPath := posixNormalize filePath
  (splitOnChar '/' normalizedPath).any
    (fun part => part = ".mint".toList || part = ".rwx".toList)

/-- Modelled from the spec (§4.2 and claim C3): the scope predicate as the
specification words it — the `file://` prefix is stripped (only a leading
occurrence is removed), the remainder is normalized and split into
segments, and some segment must equal `.mint` or `.rwx` exactly. Kept
separate from `isRwxRunFile` so the two readings can be compared. -/
def inScopeSpec (uri : String) : Bool :=
  let l := uri.toList
  let filePath := if headMatch "file://".toList l then l.drop 7 else l
  (splitOnChar '/' (posixNormalize filePath)).any
    (fun part => part = ".mint".toList || part = ".rwx".toList)

/-! ## Parse errors and the diagnostics computation
(`validateTextDocumentForDiagnostics`) -/

/-- One stack-trace frame of a parse error, as consumed by the server
(only `endLine`/`endColumn` are read; both are 1-based and optional). -/
structure StackFrame where
  endLine : Option Nat
  endColumn : Option Nat
  deriving DecidableEq, Repr

/-- One parse error reported by `YamlParser.safelyParseRun` (the fields
the server reads; `line`/`column` are 1-based and optional). -/
structure ParseError where
  message : String
  line : Option Nat
  column : Option Nat
  advice : Option String
  stackTrace : List StackFrame
  deriving DecidableEq, Repr

/-- JavaScript truthiness of an optional number: `undefined` and `0` are
falsy. The server tests `stackEntry?.endLine ? ... : fallback`, so both an
absent and a zero coordinate select the fallback. -/
def truthyNat : Option Nat → Option Nat
  | some n => if n = 0 then none else some n
  | none => none

/-- The per-error diagnostic built by the loop at server.ts:301-334:
1-based parser coordinates are converted to 0-based protocol coordinates;
the end position comes from the last stack-trace entry when it carries
truthy `endLine`/`endColumn`, otherwise it falls back to the start line and
`start character + 10`; advice text is appended to the message when it is
truthy (non-empty). -/
def convertParseError (e : ParseError) : Diagnostic :=
  let stackEntry := e.stackTrace.getLast?
  let startLine := e.line.getD 1 - 1
  let startChar := e.column.getD 1 - 1
  let endLine :=
    match truthyNat (stackEntry.bind (·.endLine)) with
    | some el => el - 1
    | none => startLine
  let endChar :=
    match truthyNat (stackEntry.bind (·.endColumn)) with
    | some ec => ec - 1
    | none => startChar + 10
  { severity := .error
    range := ⟨⟨startLine, startChar⟩, ⟨endLine, endChar⟩⟩
    message :=
      match e.advice with
      | some a => if a = "" then e.message else e.message ++ "\n\nAdvice: " ++ a
      | none => e.message
    source := "rwx-run-parser" }

/-- Embedding of `validateTextDocumentForDiagnostics` (server.ts:278).
Out-of-scope documents yield no diagnostics. The awaited parser invocation
is passed as `parseOutcome`: `.ok errors` embeds a normal return (whose
`errors` array drives the conversion loop) and `.error msg` embeds a
raised exception, caught at server.ts:342, which discards everything and
yields the single synthetic diagnostic. The resolved
`settings.maxNumberOfProblems` is passed as `maxNumberOfProblems` and the
awaited `fetchRWXPackages()` catalog inside `checkPackageVersions` as
`fetched`; the final list is truncated by `slice(0, maxNumberOfProblems)`. -/
def validateTextDocumentForDiagnostics (uri : String)
    (maxNumberOfProblems : Nat) (parseOutcome : Except String (List ParseError))
    (text : String) (fetched : Option Catalog) : List Diagnostic :=
  if !isRwxRunFile uri then []
  else
    match parseOutcome with
    | .error msg =>
      [{ severity := .error
         range := ⟨⟨0, 0⟩, ⟨0, 10⟩⟩
         message := "Parser error: " ++ msg
         source := "rwx-run-parser" }]
    | .ok errors =>
      ((errors.map convertParseError) ++ checkPackageVersions text fetched).take
        maxNumberOfProblems

/-! ## Use-context detection and completion (`isInUseContext`,
`extractTaskKeys`, `connection.onCompletion`) -/

/-- First match of the regular expression `/use:\s*\[/` starting exactly at
the given suffix: returns the match length when the suffix begins with
`use:`, then whitespace, then `[`. -/
def useArrayMatchHere (l : List Char) : Option Nat :=
  if headMatch "use:".toList l then
    let rest := l.drop 4
    let w := rest.takeWhile jsWs
    match rest.drop w.length with
    | '[' :: _ => some (4 + w.length + 1)
    | _ => none
  else none

/-- First match of `/use:\s*\[/` anywhere in the line, with its index and
length, scanning start positions left to right as the JavaScript engine
does (`currentLine.match(useArrayPattern)`). -/
def findUseArray : List Char → Option (Nat × Nat)
  | [] => (useArrayMatchHere []).map (fun n => (0, n))
  | c :: t =>
    match useArrayMatchHere (c :: t) with
    | some n => some (0, n)
    | none => (findUseArray t).map (fun p => (p.1 + 1, p.2))

/-- Embedding of `isInUseContext` (server.ts:705). `lines[line] || ''` and
`substring(0, character)` are embedded by `getD` and clamped `take`. The
unanchored test `/\s*use:\s*/.test(beforeCursor)` succeeds exactly when
`use:` occurs in the string, because both `\s*` parts may be empty. -/
def isInUseContext (text : String) (pos : LPos) : Bool :=
  let lines := splitOnChar '\n' text.toList
  let currentLine := lines.getD pos.line []
  let beforeCursor := currentLine.take pos.character
  if containsSub "use:".toList beforeCursor &&
      !(beforeCursor.contains '[') then true
  else if containsSub "use:".toList beforeCursor &&
      beforeCursor.contains '[' && !(beforeCursor.contains ']') then true
  else if containsSub "use:".toList currentLine &&
      currentLine.contains '[' && !(currentLine.contains ']') then
    match findUseArray currentLine with
    | some m => decide (m.1 + m.2 ≤ pos.character)
    | none => false
  else false

/-- The `key` property of a parsed task as the server sees it: a string,
absent (`undefined`/`null`), or some non-string value. Only `key` is read
by `extractTaskKeys`; the other task fields pass through unused. -/
inductive TaskKeyField
  | strVal (s : String)
  | absent
  | nonString
  deriving DecidableEq, Repr

/-- A task record of the parse result (the one field the server reads). -/
structure PTask where
  key : TaskKeyField
  deriving DecidableEq, Repr

/-- The parse result of `YamlParser.safelyParseRun` as consumed by the
completion handler: `partialRunDefinition` may be absent, and carries an
ordered task list. (The parser itself is the vendored external engine; its
output shape is the adapter contract of spec §4.10.) -/
structure ParseResult where
  partialRunDefinition : Option (List PTask)
  errors : List ParseError
  deriving DecidableEq, Repr

/-- Embedding of `extractTaskKeys` (server.ts:359): when the parse result
has no `partialRunDefinition.tasks`, the empty list; otherwise the task
keys filtered by `key && typeof key === 'string'`, i.e. exactly the keys
that are non-empty strings, in task order. -/
def extractTaskKeys (result : ParseResult) : List String :=
  match result.partialRunDefinition with
  | none => []
  | some tasks =>
    tasks.filterMap fun t =>
      match t.key with
      | .strVal s => if s = "" then none else some s
      | _ => none

/-- LSP completion-item kinds used by the server. -/
inductive CItemKind
  | reference
  | folder
  | file
  | module
  | property
  deriving DecidableEq, Repr

/-- LSP completion item, restricted to the fields the server populates. -/
structure CompletionItem where
  label : String
  kind : CItemKind
  detail : String
  documentation : Option String := none
  insertText : String
  dataTag : String
  deriving DecidableEq, Repr

/-- The items returned by the use-context branch of
`connection.onCompletion` (server.ts:766): one item per extracted task
key, kind Reference, detail `Task dependency`, documentation
`Reference to task "<key>"`, data `task-<index>`, insert text the key. -/
def useTaskCompletionItems (result : ParseResult) : List CompletionItem :=
  (extractTaskKeys result).enum.map fun p =>
    { label := p.2
      kind := .reference
      detail := "Task dependency"
      documentation := some ("Reference to task \"" ++ p.2 ++ "\"")
      dataTag := "task-" ++ toString p.1
      insertText := p.2 }

/-- Embedding of the gate and first branch of `connection.onCompletion`
(server.ts:743-778): a document that is not an RWX run file yields no
items; in use-context the task-key items are returned after parsing the
document. The awaited parse result is the `parsed` argument, and the later
branches (embedded-run paths, call packages, with parameters), which
depend on filesystem and network oracles, are abstracted as
`laterBranches` — the claims below only concern the gate and the
use-context branch, which are evaluated before any of them. -/
def onCompletion (uri text : String) (pos : LPos) (parsed : ParseResult)
    (laterBranches : List CompletionItem) : List CompletionItem :=
  if !isRwxRunFile uri then []
  else if isInUseContext text pos then useTaskCompletionItems parsed
  else laterBranches

/-! ## Embedded-run file completions (`getFileCompletions`) -/

/-- The kind of a directory entry from `fs.readdirSync(..,
{ withFileTypes: true })`: `entry.isDirectory()`, `entry.isFile()`, or
neither (sockets, FIFOs, symbolic links, ...). -/
inductive EntryKind
  | directory
  | file
  | other
  deriving DecidableEq, Repr

/-- One directory entry (`fs.Dirent`): a name and its kind. -/
structure DirEntry where
  name : String
  kind : EntryKind
  deriving DecidableEq, Repr

/-- The comparator passed to `completions.sort` (server.ts:450): folders
before files, and within the same kind the labels are compared
(`localeCompare` is embedded as character-code comparison, which agrees
with it on the ASCII file names at issue). The JavaScript comparator
returns a negative, zero or positive number; `sortLe a b` embeds
`compare(a, b) <= 0`. -/
def sortLe (a b : CompletionItem) : Bool :=
  if a.kind = .folder ∧ b.kind = .file then true
  else if a.kind = .file ∧ b.kind = .folder then false
  else decide (a.label ≤ b.label)

/-- Insert into a sorted list, keeping earlier elements first on ties. -/
def insertLe (x : CompletionItem) : List CompletionItem → List CompletionItem
  | [] => [x]
  | y :: t => if sortLe x y then x :: y :: t else y :: insertLe x t

/-- Stable sort by `sortLe`, embedding `Array.prototype.sort` (which the
JavaScript specification requires to be a stable sort). -/
def stableSortLe : List CompletionItem → List CompletionItem
  | [] => []
  | x :: t => insertLe x (stableSortLe t)

/-- The folder completion item built at server.ts:429. -/
def folderItem (name : String) : CompletionItem :=
  { label := name
    kind := .folder
    detail := "Directory"
    insertText := name ++ "/"
    dataTag := "dir-" ++ name }

/-- The YAML-file completion item built at server.ts:439. -/
def fileItem (name : String) : CompletionItem :=
  { label := name
    kind := .file
    detail := "RWX run definition file"
    insertText := name
    dataTag := "file-" ++ name }

/-- JavaScript `name.startsWith('.')`. -/
def isHidden (name : String) : Bool :=
  headMatch ['.'] name.toList

/-- JavaScript `name.endsWith(suf)`. -/
def strEndsWith (suf name : String) : Bool :=
  headMatch suf.toList.reverse name.toList.reverse

/-- Embedding of `getFileCompletions` (server.ts:410). The filesystem is
passed as the `listing` oracle: `none` embeds every early exit (the search
directory does not exist, is not a directory, or reading it throws — all
of which return the empty list), and `some entries` the successful
`readdirSync`. Hidden entries (name starting with `.`) are skipped,
directories become folder items, files become file items only when their
name ends in `.yml` or `.yaml`, and the result is sorted folders-first
then alphabetically. -/
def getFileCompletions (listing : Option (List DirEntry)) :
    List CompletionItem :=
  match listing with
  | none => []
  | some entries =>
    let completions := entries.filterMap fun e =>
      if isHidden e.name then none
      else
        match e.kind with
        | .directory => some (folderItem e.name)
        | .file =>
          if strEndsWith ".yml" e.name || strEndsWith ".yaml" e.name then
            some (fileItem e.name)
          else none
        | .other => none
    stableSortLe completions

/-! ## Code actions (`connection.onCodeAction`) -/

/-- LSP text edit: replace a range with new text. -/
structure TextEdit where
  range : LRange
  newText : String
  deriving DecidableEq, Repr

/-- LSP code action, restricted to the fields the server populates: the
edit is a workspace edit mapping one document URI to its text edits. -/
structure CodeAction where
  title : String
  isQuickFix : Bool
  diagnostics : List Diagnostic
  edit : List (String × List TextEdit)
  deriving DecidableEq, Repr

/-- Embedding of the `connection.onCodeAction` handler (server.ts:1118):
filter the request context diagnostics to those with code
`outdated-version` and source `rwx`, and for each one carrying data build
one quick-fix action replacing the stored version range with the latest
version, scoped to the requesting document URI. -/
def onCodeAction (uri : String) (contextDiagnostics : List Diagnostic) :
    List CodeAction :=
  let outdatedDiagnostics := contextDiagnostics.filter fun d =>
    d.code = some "outdated-version" && d.source = "rwx"
  outdatedDiagnostics.filterMap fun d =>
    match d.data with
    | none => none
    | some data =>
      some
        { title := "Update to latest version (" ++ data.latestVersion ++ ")"
          isQuickFix := true
          diagnostics := [d]
          edit := [(uri,
            [{ range := ⟨⟨data.line, data.versionStart⟩,
                 ⟨data.line, data.versionEnd⟩⟩
               newText := data.latestVersion }])] }

/-! ## Registry client caches (`fetchRWXPackages`, `fetchPackageDetails`) -/

/-- The module-level `packageCache` slot (server.ts:63): last successful
catalog (or null) and its fetch timestamp in milliseconds. -/
structure ListCache where
  data : Option Catalog
  timestamp : Nat
  deriving DecidableEq, Repr

/-- `CACHE_DURATION` (server.ts:71): one hour in milliseconds. -/
def cacheDuration : Nat := 60 * 60 * 1000

/-- Embedding of `fetchRWXPackages` (server.ts:74). `now` is `Date.now()`,
`st` the current cache slot, and `net` the network oracle: `some catalog`
embeds a 2xx response with that JSON body, `none` embeds both a non-2xx
response and a thrown network error — the source handles the two
identically, logging and returning the cached data. The result is the
returned catalog (or null), the updated cache slot, and whether a network
request was issued. -/
def fetchRWXPackages (now : Nat) (st : ListCache) (net : Option Catalog) :
    Option Catalog × ListCache × Bool :=
  if st.data.isSome ∧ now - st.timestamp < cacheDuration then
    (st.data, st, false)
  else
    match net with
    | some fresh => (some fresh, ⟨some fresh, now⟩, true)
    | none => (st.data, st, true)

/-- Detailed package record (interface `RWXPackageDetails`); the cache
claims treat it as opaque data, so only a representative field set is
carried. -/
structure RWXPackageDetails where
  name : String
  version : String
  description : String
  deriving DecidableEq, Repr

/-- The module-level `packageDetailsCache` map (server.ts:69), embedded as
an association list with lookup of the first matching key. -/
abbrev DetailsCache := List (String × RWXPackageDetails)

/-- JavaScript `Map.prototype.get`/`has`. -/
def detailsGet (cache : DetailsCache) (key : String) :
    Option RWXPackageDetails :=
  (List.find? (fun p => p.1 = key) cache).map (·.2)

/-- JavaScript `Map.prototype.set`: overwrite an existing key, otherwise
append. -/
def detailsSet (cache : DetailsCache) (key : String)
    (v : RWXPackageDetails) : DetailsCache :=
  if (List.find? (fun p => p.1 = key) cache).isSome then
    cache.map fun p => if p.1 = key then (key, v) else p
  else cache ++ [(key, v)]

/-- The cache key built at server.ts:110. -/
def detailsCacheKey (packageName version : String) : String :=
  packageName ++ "@" ++ version

/-- Embedding of `fetchPackageDetails` (server.ts:109). The `net` oracle
is the network outcome for this call: `some d` embeds a 2xx response with
body `d`, `none` embeds both a non-2xx response and a thrown error — the
source handles the two identically, logging and returning null without
caching. A cached key is returned without consulting the network; a fresh
success is stored under `<name>@<version>` before being returned. The
result is the returned record (or null), the updated cache, and whether a
network request was issued. -/
def fetchPackageDetails (packageName version : String)
    (cache : DetailsCache) (net : Option RWXPackageDetails) :
    Option RWXPackageDetails × DetailsCache × Bool :=
  let cacheKey := detailsCacheKey packageName version
  match detailsGet cache cacheKey with
  | some cached => (some cached, cache, false)
  | none =>
    match net with
    | some d => (some d, detailsSet cache cacheKey d, true)
    | none => (none, cache, true)

/-! ## Supporting lemmas -/

theorem headMatch_append_self (p t : List Char) : headMatch p (p ++ t) = true := by
  induction p with
  | nil => rfl
  | cons c cs ih => simp [headMatch, ih]

theorem headMatch_length_le {p l : List Char} (h : headMatch p l = true) :
    p.length ≤ l.length := by
  induction p generalizing l with
  | nil => simp
  | cons c cs ih =>
    cases l with
    | nil => simp [headMatch] at h
    | cons d ds =>
      simp only [headMatch, Bool.and_eq_true] at h
      simpa using ih h.2

theorem lastOcc_bound {p l : List Char} {i : Nat} (h : lastOcc p l = some i) :
    i + p.length ≤ l.length := by
  induction l generalizing i with
  | nil =>
    by_cases hp : headMatch p [] = true
    · cases p with
      | nil => simp [lastOcc] at h; omega
      | cons c cs => simp [headMatch] at hp
    · simp [lastOcc, hp] at h
  | cons c t ih =>
    rw [lastOcc] at h
    cases hlo : lastOcc p t with
    | some j =>
      rw [hlo] at h
      simp only [Option.some.injEq] at h
      have := ih hlo
      simp only [List.length_cons]
      omega
    | none =>
      rw [hlo] at h
      by_cases hm : headMatch p (c :: t) = true
      · simp only [hm, if_true, Option.some.injEq] at h
        have := headMatch_length_le hm
        omega
      · simp [hm] at h

theorem lastOcc_append_self (pre p : List Char) (hp : p ≠ []) :
    lastOcc p (pre ++ p) = some pre.length := by
  induction pre with
  | nil =>
    cases p with
    | nil => exact absurd rfl hp
    | cons c cs =>
      rw [List.nil_append, lastOcc]
      have hnone : lastOcc (c :: cs) cs = none := by
        cases hlo : lastOcc (c :: cs) cs with
        | none => rfl
        | some j =>
          have := lastOcc_bound hlo
          simp only [List.length_cons] at this
          omega
      rw [hnone]
      have : headMatch (c :: cs) (c :: cs) = true := by
        have := headMatch_append_self (c :: cs) []
        simpa using this
      simp [this]
  | cons a pre2 ih =>
    rw [List.cons_append, lastOcc, ih]
    rfl

theorem dropWhile_append_all {q : Char → Bool} {l1 l2 : List Char}
    (h : ∀ c ∈ l1, q c = true) :
    (l1 ++ l2).dropWhile q = l2.dropWhile q := by
  induction l1 with
  | nil => rfl
  | cons c cs ih =>
    have hc : q c = true := h c (by simp)
    simp only [List.cons_append, List.dropWhile_cons, hc, if_true]
    exact ih fun d hd => h d (by simp [hd])

theorem takeWhile_append_all {q : Char → Bool} {l1 l2 : List Char}
    (h : ∀ c ∈ l1, q c = true) :
    (l1 ++ l2).takeWhile q = l1 ++ l2.takeWhile q := by
  induction l1 with
  | nil => rfl
  | cons c cs ih =>
    have hc : q c = true := h c (by simp)
    simp only [List.cons_append, List.takeWhile_cons, hc, if_true,
      List.cons.injEq, true_and]
    exact ih fun d hd => h d (by simp [hd])

theorem takeWhile_all {q : Char → Bool} {l : List Char}
    (h : ∀ c ∈ l, q c = true) : l.takeWhile q = l := by
  have h2 : (l ++ ([] : List Char)).takeWhile q = l ++ ([] : List Char).takeWhile q :=
    takeWhile_append_all h
  simpa using h2

theorem dropWhile_cons_neg {q : Char → Bool} {c : Char} {t : List Char}
    (h : q c = false) : (c :: t).dropWhile q = c :: t := by
  simp [List.dropWhile_cons, h]

/-- Scanning behaviour of the embedded `/^\s*call:\s*([^\s]+)\s+([^\s]+)/`
match on a line of the shape `<indent>call: <name> <version>`: the two
captured tokens are the name and the version. -/
theorem extract_on_call_line (ind name ver : List Char)
    (hind : ∀ c ∈ ind, jsWs c = true)
    (hname : name ≠ []) (hnamew : ∀ c ∈ name, jsWs c = false)
    (hver : ver ≠ []) (hverw : ∀ c ∈ ver, jsWs c = false) :
    extractPackageAndVersionFromCallLine
      (String.mk (ind ++ "call: ".toList ++ name ++ ' ' :: ver)) =
      some (String.mk name, String.mk ver) := by
  obtain ⟨n0, nt, rfl⟩ : ∃ n0 nt, name = n0 :: nt := by
    cases name with
    | nil => exact absurd rfl hname
    | cons n0 nt => exact ⟨n0, nt, rfl⟩
  obtain ⟨v0, vt, rfl⟩ : ∃ v0 vt, ver = v0 :: vt := by
    cases ver with
    | nil => exact absurd rfl hver
    | cons v0 vt => exact ⟨v0, vt, rfl⟩
  have hn0 : jsWs n0 = false := hnamew n0 (by simp)
  have hv0 : jsWs v0 = false := hverw v0 (by simp)
  have htl :
      (String.mk (ind ++ "call: ".toList ++ (n0 :: nt) ++ ' ' :: v0 :: vt)).toList
        = ind ++ "call: ".toList ++ (n0 :: nt) ++ ' ' :: v0 :: vt := rfl
  have hdrop1 :
      (ind ++ "call: ".toList ++ (n0 :: nt) ++ ' ' :: v0 :: vt).dropWhile jsWs
        = "call: ".toList ++ ((n0 :: nt) ++ ' ' :: v0 :: vt) := by
    rw [List.append_assoc, List.append_assoc, dropWhile_append_all hind,
      ← List.append_assoc]
    show (('c' :: "all: ".toList) ++ ((n0 :: nt) ++ ' ' :: v0 :: vt)).dropWhile jsWs = _
    rw [List.cons_append, dropWhile_cons_neg (by decide)]
    rfl
  have hhm : headMatch "call:".toList
      ("call: ".toList ++ ((n0 :: nt) ++ ' ' :: v0 :: vt)) = true := by
    show headMatch "call:".toList
      ("call:".toList ++ (' ' :: ((n0 :: nt) ++ ' ' :: v0 :: vt))) = true
    exact headMatch_append_self _ _
  have hdrop5 :
      ("call: ".toList ++ ((n0 :: nt) ++ ' ' :: v0 :: vt)).drop 5
        = ' ' :: ((n0 :: nt) ++ ' ' :: v0 :: vt) := rfl
  have htk : ((n0 :: nt) ++ ' ' :: v0 :: vt).takeWhile (fun c => !jsWs c)
      = n0 :: nt := by
    rw [takeWhile_append_all (fun c hc => by simp [hnamew c hc])]
    simp [List.takeWhile_cons, show jsWs ' ' = true from by decide]
  have hdropn : ((n0 :: nt) ++ ' ' :: v0 :: vt).drop (n0 :: nt).length
      = ' ' :: v0 :: vt := List.drop_left _ _
  have hdropv : (v0 :: vt).dropWhile jsWs = v0 :: vt := dropWhile_cons_neg hv0
  have htkv : (v0 :: vt).takeWhile (fun c => !jsWs c) = v0 :: vt :=
    takeWhile_all (fun c hc => by simp [hverw c hc])
  have hdw : List.dropWhile jsWs ((n0 :: nt) ++ ' ' :: v0 :: vt)
      = (n0 :: nt) ++ ' ' :: v0 :: vt := by
    rw [List.cons_append, dropWhile_cons_neg hn0, ← List.cons_append]
  simp only [extractPackageAndVersionFromCallLine, htl, hdrop1, hhm, if_true,
    hdrop5, List.dropWhile_cons, show jsWs ' ' = true from by decide,
    hdw, htk, reduceCtorEq, if_false, hdropn, hdropv, htkv]

theorem mem_insertLe {x a : CompletionItem} {l : List CompletionItem} :
    a ∈ insertLe x l ↔ a = x ∨ a ∈ l := by
  induction l with
  | nil => simp [insertLe]
  | cons y t ih =>
    by_cases h : sortLe x y
    · simp [insertLe, h]
    · rw [insertLe, if_neg h]
      simp only [List.mem_cons, ih]
      tauto

theorem mem_stableSortLe {a : CompletionItem} {l : List CompletionItem} :
    a ∈ stableSortLe l ↔ a ∈ l := by
  induction l with
  | nil => simp [stableSortLe]
  | cons x t ih => simp [stableSortLe, mem_insertLe, ih]

theorem find?_map_overwrite (key : String) (v : RWXPackageDetails)
    (l : DetailsCache) :
    List.find? (fun p => p.1 = key)
        (l.map fun p => if p.1 = key then (key, v) else p)
      = (List.find? (fun p => p.1 = key) l).map (fun _ => (key, v)) := by
  induction l with
  | nil => rfl
  | cons q t ih =>
    by_cases hq : q.1 = key
    · simp [List.find?_cons, hq]
    · simp [List.find?_cons, hq, ih]

/-- Storing a record under a key makes lookup of that key return it
(`Map.set` then `Map.get`). -/
theorem detailsGet_detailsSet (cache : DetailsCache) (key : String)
    (v : RWXPackageDetails) :
    detailsGet (detailsSet cache key v) key = some v := by
  by_cases h : (List.find? (fun p => p.1 = key) cache).isSome
  · obtain ⟨q, hq⟩ := Option.isSome_iff_exists.mp h
    unfold detailsGet detailsSet
    rw [if_pos h, find?_map_overwrite, hq]
    rfl
  · have hnone : List.find? (fun p => p.1 = key) cache = none := by
      cases hf : List.find? (fun p => p.1 = key) cache with
      | none => rfl
      | some q => rw [hf] at h; simp at h
    unfold detailsGet detailsSet
    rw [if_neg h, List.find?_append, hnone]
    simp [List.find?_cons]

theorem useTaskCompletionItems_labels (r : ParseResult) :
    (useTaskCompletionItems r).map (·.label) = extractTaskKeys r := by
  unfold useTaskCompletionItems
  rw [List.map_map]
  exact List.enum_map_snd _

/-- The record `extractAllCallLines` produces for a document line of the
shape `<indent>call: <name> <version>`: the version span starts right
after the indent, the six characters of `call: `, the name and the
separating space. -/
theorem extractAllCallLines_mem (text : String) (i : Nat)
    (ind name ver : List Char)
    (hi : i < (splitOnChar '\n' text.toList).length)
    (hline : (splitOnChar '\n' text.toList).getD i []
      = ind ++ "call: ".toList ++ name ++ ' ' :: ver)
    (hind : ∀ c ∈ ind, jsWs c = true)
    (hname : name ≠ []) (hnamew : ∀ c ∈ name, jsWs c = false)
    (hver : ver ≠ []) (hverw : ∀ c ∈ ver, jsWs c = false) :
    (⟨String.mk name, String.mk ver, i,
        ind.length + 6 + name.length + 1,
        ind.length + 6 + name.length + 1 + ver.length⟩ : CallLine)
      ∈ extractAllCallLines text := by
  have hget : (splitOnChar '\n' text.toList).getD i []
      = (splitOnChar '\n' text.toList)[i] :=
    List.getD_eq_getElem _ _ hi
  have hi2 : i < (splitOnChar '\n' text.toList).enum.length := by simpa using hi
  have hmem : (i, ind ++ "call: ".toList ++ name ++ ' ' :: ver)
      ∈ (splitOnChar '\n' text.toList).enum := by
    have hg := List.getElem_enum (splitOnChar '\n' text.toList) i hi2
    have := List.getElem_mem hi2
    rw [hg, ← hget, hline] at this
    exact this
  apply List.mem_filterMap.mpr
  refine ⟨(i, ind ++ "call: ".toList ++ name ++ ' ' :: ver), hmem, ?_⟩
  have hne : ind ++ "call: ".toList ++ name ++ ' ' :: ver ≠ [] := by
    intro hcontra
    simp [List.append_eq_nil] at hcontra
  have hext := extract_on_call_line ind name ver hind hname hnamew hver hverw
  have hlast : lastOcc ver (ind ++ "call: ".toList ++ name ++ ' ' :: ver)
      = some (ind.length + 6 + name.length + 1) := by
    rw [List.append_cons, lastOcc_append_self _ _ hver]
    simp [List.length_append]
    omega
  have hvtl : (String.mk ver).toList = ver := rfl
  simp only [hne, if_false, hext, hvtl, hlast]
  rfl

/-! ## Claims -/

/-- Claim C1. The claim states that for a document line `call: <package>
<version>` whose written version differs from the catalog version, the
diagnostics computation emits a Warning diagnostic with source `rwx`,
code `outdated-version`, message `Package version <written> is outdated.
The newest version is <latest>.` and a range spanning exactly the version
token. Evaluating `checkPackageVersions` at such a line shows that every
one of those fields is produced as claimed except the source, which is
the string `mint` (server.ts:683), not `rwx`; the code-action handler in
the same file filters its context for source `rwx` (server.ts:1122), so
the source contradicts itself about this field. -/
theorem c1_outdated_diagnostic_has_source_mint :
    checkPackageVersions "call: git/clone 1.6.5"
        (some [("git/clone", ⟨"1.7.0", "Clone a git repository"⟩)])
      = [{ severity := .warning
           range := ⟨⟨0, 16⟩, ⟨0, 21⟩⟩
           message :=
             "Package version 1.6.5 is outdated. The newest version is 1.7.0."
           source := "mint"
           code := some "outdated-version"
           data := some ⟨"git/clone", "1.6.5", "1.7.0", 0, 16, 21⟩ }]
      ∧ "mint" ≠ "rwx" := by
  constructor
  · decide
  · decide

/-- Claim C2. The claim states that a code-action request whose context
holds the version-outdated diagnostics the diagnostics engine itself
produced yields one quick-fix per diagnostic. Evaluating the handler on
exactly the diagnostics `checkPackageVersions` produces for the
spec example line `call: git/clone 1.6.5` (latest 1.7.0) yields no
actions at all, although the context holds one such diagnostic: the
handler keeps only diagnostics with source `rwx` while the engine stamps
its diagnostics with source `mint`, so it always filters out its own
diagnostics. -/
theorem c2_code_action_drops_own_diagnostics :
    onCodeAction "file:///repo/.mint/ci.yml"
        (checkPackageVersions "call: git/clone 1.6.5"
          (some [("git/clone", ⟨"1.7.0", "Clone a git repository"⟩)]))
      = []
      ∧ (checkPackageVersions "call: git/clone 1.6.5"
          (some [("git/clone", ⟨"1.7.0", "Clone a git repository"⟩)])).length
        = 1 := by
  constructor
  · decide
  · decide

/-- Claim C3, counterexample. The claim reads the scope predicate as
testing the segments of the normalized path obtained by stripping a
`file://` prefix. The code instead removes the first occurrence of
`file://` anywhere in the URI. On the URI `/afile://.mint` the two
disagree: the code removes the interior `file://`, leaving `/a.mint`,
whose segments contain neither `.mint` nor `.rwx`, while under the
prefix-stripping reading the path is left intact and normalizes to
`/afile:/.mint`, which does have the segment `.mint`. -/
theorem c3_counterexample_interior_scheme :
    isRwxRunFile "/afile://.mint" = false
      ∧ inScopeSpec "/afile://.mint" = true := by
  constructor
  · decide
  · decide

/-- Claim C3, amended: the scope predicate holds if and only if some
segment of the normalized path obtained by removing the first occurrence
of the substring `file://` from the URI (rather than stripping a
`file://` prefix; the two readings coincide whenever `file://` occurs
only at the start of the URI or not at all) equals exactly `.mint` or
`.rwx`; the predicate is a pure function of the URI alone (it reads no
other state, which the embedding makes definitional), and in particular
it is true for `/repo/.mint/ci.yml` and false for `/repo/mint/ci.yml`. -/
theorem c3_scope_predicate_amended (uri : String) :
    (isRwxRunFile uri = true ↔
      ∃ part ∈ splitOnChar '/'
        (posixNormalize (removeFirst "file://".toList uri.toList)),
        part = ".mint".toList ∨ part = ".rwx".toList)
      ∧ isRwxRunFile "/repo/.mint/ci.yml" = true
      ∧ isRwxRunFile "/repo/mint/ci.yml" = false := by
  refine ⟨?_, by decide, by decide⟩
  simp only [isRwxRunFile, List.any_eq_true, Bool.or_eq_true, decide_eq_true_eq]

/-- Claim C4. For every in-scope document, when the parser returns
normally the diagnostics computation returns the converted parser errors
in reported order, followed by the version-outdated warnings, the whole
list truncated to at most the resolved `maxNumberOfProblems` entries
(excess entries are dropped without any other effect); in particular the
result never exceeds `maxNumberOfProblems` entries. The particular
instance of the claim (5 parser errors, 0 version warnings,
`maxNumberOfProblems = 2`, exactly the first 2 returned) is the witness
below. -/
theorem c4_diagnostics_order_and_truncation (uri : String)
    (maxNumberOfProblems : Nat) (errors : List ParseError) (text : String)
    (fetched : Option Catalog) (h : isRwxRunFile uri = true) :
    validateTextDocumentForDiagnostics uri maxNumberOfProblems
        (Except.ok errors) text fetched
      = ((errors.map convertParseError)
          ++ checkPackageVersions text fetched).take maxNumberOfProblems
      ∧ (validateTextDocumentForDiagnostics uri maxNumberOfProblems
          (Except.ok errors) text fetched).length ≤ maxNumberOfProblems := by
  constructor
  · simp [validateTextDocumentForDiagnostics, h]
  · simp only [validateTextDocumentForDiagnostics, h, Bool.not_true,
      Bool.false_eq_true, if_false]
    exact List.length_take_le _ _

/-- Witness for C4, instantiating the particular instance named by the
claim: `maxNumberOfProblems = 2`, a document yielding 5 parser errors and
0 version warnings returns exactly the first 2 reported diagnostics. -/
theorem c4_witness :
    validateTextDocumentForDiagnostics "file:///repo/.mint/ci.yml" 2
        (Except.ok
          [⟨"err1", some 1, some 1, none, []⟩,
           ⟨"err2", some 2, some 3, none, []⟩,
           ⟨"err3", some 3, some 1, none, []⟩,
           ⟨"err4", some 4, some 1, none, []⟩,
           ⟨"err5", some 5, some 1, none, []⟩]) "" none
      = [{ severity := .error, range := ⟨⟨0, 0⟩, ⟨0, 10⟩⟩,
           message := "err1", source := "rwx-run-parser" },
         { severity := .error, range := ⟨⟨1, 2⟩, ⟨1, 12⟩⟩,
           message := "err2", source := "rwx-run-parser" }] :=
  (c4_diagnostics_order_and_truncation "file:///repo/.mint/ci.yml" 2
    [⟨"err1", some 1, some 1, none, []⟩,
     ⟨"err2", some 2, some 3, none, []⟩,
     ⟨"err3", some 3, some 1, none, []⟩,
     ⟨"err4", some 4, some 1, none, []⟩,
     ⟨"err5", some 5, some 1, none, []⟩] "" none (by decide)).1.trans
    (by decide)

/-- Claim C5, counterexample. The claim states the call-line pattern
tolerates an optional leading `-` list marker. It does not: the anchored
pattern `/^\s*call:\s*.../` admits only whitespace before `call:`, so the
line `- call: git/clone 1.0.0` does not match, and no version-outdated
diagnostic is emitted for it even when the registry lists `git/clone` at
a newer version. -/
theorem c5_counterexample_dash_marker :
    extractPackageAndVersionFromCallLine "- call: git/clone 1.0.0" = none
      ∧ checkPackageVersions "- call: git/clone 1.0.0"
          (some [("git/clone", ⟨"1.1.0", "Clone a git repository"⟩)]) = [] := by
  constructor
  · decide
  · decide

/-- Claim C5, amended: the version-outdated check scans every line of the
document and matches `call: <package> <version>`, taking the first two
whitespace-separated tokens after `call:` and tolerating leading
indentation, but not a leading `-` list marker; so for every document
line of the form `<indent>call: <name> <version>` whose version is
outdated according to the catalog, a version-outdated diagnostic is
emitted for that line (with the version span starting after the indent,
`call: ` and the name plus separating space). -/
theorem c5_call_line_scan_amended (text : String) (i : Nat)
    (ind name ver : List Char) (cat : Catalog) (p : RWXPackage)
    (hi : i < (splitOnChar '\n' text.toList).length)
    (hline : (splitOnChar '\n' text.toList).getD i []
      = ind ++ "call: ".toList ++ name ++ ' ' :: ver)
    (hind : ∀ c ∈ ind, jsWs c = true)
    (hname : name ≠ []) (hnamew : ∀ c ∈ name, jsWs c = false)
    (hver : ver ≠ []) (hverw : ∀ c ∈ ver, jsWs c = false)
    (hcat : catalogLookup cat (String.mk name) = some p)
    (hout : p.version ≠ String.mk ver) :
    outdatedDiag
        ⟨String.mk name, String.mk ver, i,
          ind.length + 6 + name.length + 1,
          ind.length + 6 + name.length + 1 + ver.length⟩ p.version
      ∈ checkPackageVersions text (some cat) := by
  apply List.mem_filterMap.mpr
  refine ⟨⟨String.mk name, String.mk ver, i,
    ind.length + 6 + name.length + 1,
    ind.length + 6 + name.length + 1 + ver.length⟩,
    extractAllCallLines_mem text i ind name ver hi hline hind hname hnamew
      hver hverw, ?_⟩
  simp [hcat, hout]

/-- Witness for C5: the indented line `  call: git/clone 1.6.5` on the
second line of a document, with the registry listing `git/clone` at
1.7.0, produces the version-outdated diagnostic for that line with the
version span at columns 18-23. -/
theorem c5_witness :
    outdatedDiag ⟨"git/clone", "1.6.5", 1, 18, 23⟩ "1.7.0"
      ∈ checkPackageVersions "tasks:\n  call: git/clone 1.6.5"
          (some [("git/clone", ⟨"1.7.0", "Clone a git repository"⟩)]) :=
  c5_call_line_scan_amended "tasks:\n  call: git/clone 1.6.5" 1
    "  ".toList "git/clone".toList "1.6.5".toList
    [("git/clone", ⟨"1.7.0", "Clone a git repository"⟩)]
    ⟨"1.7.0", "Clone a git repository"⟩
    (by decide) (by decide) (by decide) (by decide) (by decide) (by decide)
    (by decide) (by decide) (by decide)

/-- Claim C6. For every in-scope document and every cursor position
recognized as use-context, completion returns exactly one item per task
of the parse result whose key is a non-empty string, in document order
(the labels of the returned items are exactly those keys in order), and
every item has kind Reference, detail `Task dependency`, documentation
`Reference to task "<key>"`, and insert text equal to its label. -/
theorem c6_use_context_completion (uri text : String) (pos : LPos)
    (parsed : ParseResult) (laterBranches : List CompletionItem)
    (h1 : isRwxRunFile uri = true) (h2 : isInUseContext text pos = true) :
    (onCompletion uri text pos parsed laterBranches).map (·.label)
      = (parsed.partialRunDefinition.getD []).filterMap (fun t =>
          match t.key with
          | .strVal s => if s = "" then none else some s
          | _ => none)
      ∧ ∀ it ∈ onCompletion uri text pos parsed laterBranches,
          it.kind = .reference ∧ it.detail = "Task dependency"
            ∧ it.insertText = it.label
            ∧ it.documentation
              = some ("Reference to task \"" ++ it.label ++ "\"") := by
  have hon : onCompletion uri text pos parsed laterBranches
      = useTaskCompletionItems parsed := by
    simp [onCompletion, h1, h2]
  have hkeys : extractTaskKeys parsed
      = (parsed.partialRunDefinition.getD []).filterMap (fun t =>
          match t.key with
          | .strVal s => if s = "" then none else some s
          | _ => none) := by
    obtain ⟨pd, errs⟩ := parsed
    cases pd <;> rfl
  constructor
  · rw [hon, useTaskCompletionItems_labels, hkeys]
  · intro it hit
    rw [hon] at hit
    unfold useTaskCompletionItems at hit
    obtain ⟨q, _, hq⟩ := List.mem_map.mp hit
    subst hq
    exact ⟨rfl, rfl, rfl, rfl⟩

/-- Witness for C6, instantiating the round-trip named by the claim: a
document defining tasks `build` and `test`, completion requested at the
end of `use: ` inside the block of `test`, yields items whose labels are
exactly `build` and `test` in order — in particular an item with label
and insert text exactly `build`. -/
theorem c6_witness :
    (onCompletion "file:///repo/.mint/ci.yml"
        "tasks:\n  - key: build\n    run: npm run build\n  - key: test\n    use: "
        ⟨4, 9⟩ ⟨some [⟨.strVal "build"⟩, ⟨.strVal "test"⟩], []⟩ []).map (·.label)
      = ["build", "test"]
      ∧ ∀ it ∈ onCompletion "file:///repo/.mint/ci.yml"
          "tasks:\n  - key: build\n    run: npm run build\n  - key: test\n    use: "
          ⟨4, 9⟩ ⟨some [⟨.strVal "build"⟩, ⟨.strVal "test"⟩], []⟩ [],
          it.insertText = it.label :=
  ⟨((c6_use_context_completion "file:///repo/.mint/ci.yml"
      "tasks:\n  - key: build\n    run: npm run build\n  - key: test\n    use: "
      ⟨4, 9⟩ ⟨some [⟨.strVal "build"⟩, ⟨.strVal "test"⟩], []⟩ []
      (by decide) (by decide)).1).trans (by decide),
   fun it hit =>
    ((c6_use_context_completion "file:///repo/.mint/ci.yml"
      "tasks:\n  - key: build\n    run: npm run build\n  - key: test\n    use: "
      ⟨4, 9⟩ ⟨some [⟨.strVal "build"⟩, ⟨.strVal "test"⟩], []⟩ []
      (by decide) (by decide)).2 it hit).2.2.1⟩

/-- Claim C7. The package-list fetch: a call made while a previously
fetched catalog is younger than 3,600,000 ms returns that catalog with no
network request and leaves the cache slot unchanged; a call after that
window always issues a network request; and a call whose network request
fails (a thrown error or a non-2xx response, both embedded by the `none`
oracle) returns whatever is cached — possibly absent — and leaves the
cache unchanged; the embedding is a total function, so no exception
reaches the caller. -/
theorem c7_package_list_cache (now : Nat) (st : ListCache) (cat : Catalog)
    (net : Option Catalog) :
    (st.data = some cat → now - st.timestamp < cacheDuration →
        fetchRWXPackages now st net = (some cat, st, false))
      ∧ (cacheDuration ≤ now - st.timestamp →
          (fetchRWXPackages now st net).2.2 = true)
      ∧ ((fetchRWXPackages now st none).1 = st.data
          ∧ (fetchRWXPackages now st none).2.1 = st) := by
  refine ⟨?_, ?_, ?_⟩
  · intro h1 h2
    have hcond : st.data.isSome ∧ now - st.timestamp < cacheDuration :=
      ⟨by simp [h1], h2⟩
    unfold fetchRWXPackages
    rw [if_pos hcond, h1]
  · intro h
    have hcond : ¬(st.data.isSome ∧ now - st.timestamp < cacheDuration) := by
      rintro ⟨-, hlt⟩
      omega
    unfold fetchRWXPackages
    rw [if_neg hcond]
    cases net <;> rfl
  · by_cases hcond : st.data.isSome ∧ now - st.timestamp < cacheDuration
    · unfold fetchRWXPackages
      rw [if_pos hcond]
      exact ⟨rfl, rfl⟩
    · unfold fetchRWXPackages
      rw [if_neg hcond]
      exact ⟨rfl, rfl⟩

/-- Witness for C7, instantiating the cache scenario of the claim: after
a successful fetch at time 1000, a call at time 3,600,999 (less than
3,600,000 ms later) returns the cached catalog without a network request;
a call at time 3,601,000 (the window elapsed) issues a request; and when
that request fails the stale catalog is still returned. -/
theorem c7_witness :
    (fetchRWXPackages 3600999
        ⟨some [("git/clone", ⟨"1.7.0", "d"⟩)], 1000⟩
        none
      = (some [("git/clone", ⟨"1.7.0", "d"⟩)],
          ⟨some [("git/clone", ⟨"1.7.0", "d"⟩)], 1000⟩, false))
      ∧ (fetchRWXPackages 3601000
          ⟨some [("git/clone", ⟨"1.7.0", "d"⟩)], 1000⟩ none).2.2 = true
      ∧ (fetchRWXPackages 3601000
          ⟨some [("git/clone", ⟨"1.7.0", "d"⟩)], 1000⟩ none).1
        = some [("git/clone", ⟨"1.7.0", "d"⟩)] :=
  ⟨(c7_package_list_cache 3600999
      ⟨some [("git/clone", ⟨"1.7.0", "d"⟩)], 1000⟩
      [("git/clone", ⟨"1.7.0", "d"⟩)] none).1 rfl (by decide),
   (c7_package_list_cache 3601000
      ⟨some [("git/clone", ⟨"1.7.0", "d"⟩)], 1000⟩
      [("git/clone", ⟨"1.7.0", "d"⟩)] none).2.1 (by decide),
   ((c7_package_list_cache 3601000
      ⟨some [("git/clone", ⟨"1.7.0", "d"⟩)], 1000⟩
      [("git/clone", ⟨"1.7.0", "d"⟩)] none).2.2.1).trans rfl⟩

/-- Claim C8. The package-details fetch, keyed `<name>@<version>`: a
successful fetch on a cache miss stores the record under that key and
returns it, and lookup of the updated cache finds it; any fetch that hits
the cache returns the cached record with no network request, whatever the
network oracle would answer (the function takes no clock at all, so the
behaviour is independent of elapsed time); a failed fetch (thrown error
or non-2xx, both embedded by the `none` oracle) caches nothing — the
cache is returned unchanged, so the next fetch for the same key consults
the network again — and the caller receives the absent result rather than
an exception (the embedding is a total function). -/
theorem c8_package_details_cache (packageName version : String)
    (cache : DetailsCache) (d v : RWXPackageDetails)
    (net : Option RWXPackageDetails) :
    (detailsGet cache (detailsCacheKey packageName version) = none →
        fetchPackageDetails packageName version cache (some d)
          = (some d, detailsSet cache (detailsCacheKey packageName version) d,
              true)
          ∧ detailsGet
              (detailsSet cache (detailsCacheKey packageName version) d)
              (detailsCacheKey packageName version) = some d)
      ∧ (detailsGet cache (detailsCacheKey packageName version) = some v →
          fetchPackageDetails packageName version cache net
            = (some v, cache, false))
      ∧ (detailsGet cache (detailsCacheKey packageName version) = none →
          fetchPackageDetails packageName version cache none
            = (none, cache, true)) := by
  refine ⟨?_, ?_, ?_⟩
  · intro h
    refine ⟨?_, detailsGet_detailsSet _ _ _⟩
    unfold fetchPackageDetails
    simp only [h]
  · intro h
    unfold fetchPackageDetails
    simp only [h]
  · intro h
    unfold fetchPackageDetails
    simp only [h]

/-- Witness for C8, instantiating the cache scenario of the claim for
`git/clone@1.6.5`: the first successful fetch stores the record and
issues a network request; the second fetch returns it from the cache with
no network request; and a failed fetch on an empty cache returns the
absent record and leaves the cache empty. -/
theorem c8_witness :
    (fetchPackageDetails "git/clone" "1.6.5" []
        (some ⟨"git/clone", "1.6.5", "Clone a git repository"⟩)
      = (some ⟨"git/clone", "1.6.5", "Clone a git repository"⟩,
          [("git/clone@1.6.5", ⟨"git/clone", "1.6.5", "Clone a git repository"⟩)],
          true))
      ∧ (fetchPackageDetails "git/clone" "1.6.5"
          [("git/clone@1.6.5", ⟨"git/clone", "1.6.5", "Clone a git repository"⟩)]
          none
        = (some ⟨"git/clone", "1.6.5", "Clone a git repository"⟩,
            [("git/clone@1.6.5",
              ⟨"git/clone", "1.6.5", "Clone a git repository"⟩)], false))
      ∧ fetchPackageDetails "git/clone" "1.6.5" [] none = (none, [], true) :=
  ⟨((c8_package_details_cache "git/clone" "1.6.5" []
      ⟨"git/clone", "1.6.5", "Clone a git repository"⟩
      ⟨"git/clone", "1.6.5", "Clone a git repository"⟩ none).1 (by decide)).1.trans
      (by decide),
   (c8_package_details_cache "git/clone" "1.6.5"
      [("git/clone@1.6.5", ⟨"git/clone", "1.6.5", "Clone a git repository"⟩)]
      ⟨"git/clone", "1.6.5", "Clone a git repository"⟩
      ⟨"git/clone", "1.6.5", "Clone a git repository"⟩ none).2.1 (by decide),
   (c8_package_details_cache "git/clone" "1.6.5" []
      ⟨"git/clone", "1.6.5", "Clone a git repository"⟩
      ⟨"git/clone", "1.6.5", "Clone a git repository"⟩ none).2.2 (by decide)⟩

/-- Claim C9. Whenever the parser invocation inside the diagnostics
computation raises an exception (embedded by the `.error` parse outcome)
on an in-scope document, every partially accumulated diagnostic is
discarded and the computation returns exactly one diagnostic: severity
Error, range from line 0 character 0 to line 0 character 10, message
`Parser error: <exception text>`, source `rwx-run-parser`. -/
theorem c9_parser_exception_single_diagnostic (uri msg : String)
    (maxNumberOfProblems : Nat) (text : String) (fetched : Option Catalog)
    (h : isRwxRunFile uri = true) :
    validateTextDocumentForDiagnostics uri maxNumberOfProblems
        (Except.error msg) text fetched
      = [{ severity := .error
           range := ⟨⟨0, 0⟩, ⟨0, 10⟩⟩
           message := "Parser error: " ++ msg
           source := "rwx-run-parser" }] := by
  simp [validateTextDocumentForDiagnostics, h]

/-- Witness for C9: a parser exception with text `boom` on an in-scope
document yields exactly the single synthetic diagnostic. -/
theorem c9_witness :
    validateTextDocumentForDiagnostics "file:///repo/.mint/ci.yml" 1000
        (Except.error "boom") "tasks:" none
      = [{ severity := .error
           range := ⟨⟨0, 0⟩, ⟨0, 10⟩⟩
           message := "Parser error: boom"
           source := "rwx-run-parser" }] :=
  c9_parser_exception_single_diagnostic "file:///repo/.mint/ci.yml" "boom"
    1000 "tasks:" none (by decide)

/-- Claim C10. For every directory listing (hence every base directory
and partial relative path the listing was read from), embedded-run path
completion never returns an item for an entry whose name begins with a
dot — hidden files and directories, including nested `.mint`/`.rwx`
directories, are always excluded — and every returned item is either a
directory item, whose insert text is its name followed by `/`, or a file
item whose name ends in `.yml` or `.yaml`. -/
theorem c10_file_completions_filtered (listing : Option (List DirEntry))
    (it : CompletionItem) (h : it ∈ getFileCompletions listing) :
    isHidden it.label = false
      ∧ ((it.kind = .folder ∧ it.insertText = it.label ++ "/")
          ∨ (it.kind = .file
              ∧ (strEndsWith ".yml" it.label || strEndsWith ".yaml" it.label)
                = true)) := by
  cases listing with
  | none => simp [getFileCompletions] at h
  | some entries =>
    rw [getFileCompletions, mem_stableSortLe] at h
    obtain ⟨e, _, hfe⟩ := List.mem_filterMap.mp h
    by_cases hh : isHidden e.name
    · simp [hh] at hfe
    · rw [if_neg hh] at hfe
      cases hk : e.kind with
      | directory =>
        rw [hk] at hfe
        simp only [Option.some.injEq] at hfe
        subst hfe
        exact ⟨by simpa using hh, Or.inl ⟨rfl, rfl⟩⟩
      | file =>
        rw [hk] at hfe
        by_cases hy : (strEndsWith ".yml" e.name || strEndsWith ".yaml" e.name)
          = true
        · rw [if_pos hy] at hfe
          simp only [Option.some.injEq] at hfe
          subst hfe
          exact ⟨by simpa using hh, Or.inr ⟨rfl, hy⟩⟩
        · rw [if_neg hy] at hfe
          exact absurd hfe (by simp)
      | other =>
        rw [hk] at hfe
        exact absurd hfe (by simp)

/-- Witness for C10: in a listing holding a hidden directory `.git`, a
plain directory `sub`, a YAML file `ci.yml` and a text file `notes.txt`,
the directory item for `sub` is returned and satisfies the filtering
property. -/
theorem c10_witness :
    isHidden (folderItem "sub").label = false
      ∧ (((folderItem "sub").kind = .folder
            ∧ (folderItem "sub").insertText = (folderItem "sub").label ++ "/")
          ∨ ((folderItem "sub").kind = .file
              ∧ (strEndsWith ".yml" (folderItem "sub").label
                  || strEndsWith ".yaml" (folderItem "sub").label) = true)) :=
  c10_file_completions_filtered
    (some [⟨".git", .directory⟩, ⟨"sub", .directory⟩, ⟨"ci.yml", .file⟩,
      ⟨"notes.txt", .file⟩])
    (folderItem "sub") (by decide)

end RwxServer
